import Mathlib

/-!
Verification development for the LFA_LAB2 repository (src/main.py):
a lexer (`Lexer`) producing a token stream, and a recursive-descent
calculator (`calculate`) evaluating arithmetic expressions from it.

The Python code is shallowly embedded:
* Python strings are `List Char` / `String`; the scanner's mutable
  `position` cursor is represented by passing the not-yet-consumed
  suffix of the source, and the mutable `line`/`column` counters are
  passed explicitly.  The scanner's `while not is_at_end(): scan_token()`
  loop is driven by a fuel parameter that is always sufficient
  (each scan step consumes at least one character, see below), keeping
  every definition kernel-reducible.
* Python's `str.isspace`/`isalpha`/`isdigit`/`isalnum` are modelled on
  the ASCII range (the repository's inputs are ASCII).
* Python numbers (`int`/`float`) are modelled by `PyNum`: `int` exactly,
  `float` as an exact rational (binary rounding is not modelled; all
  values computed in the claims are exactly representable).
  `math.sin`, `math.cos` and the float-power fallback with a
  non-integer exponent are external real-valued functions; they are
  passed in as an explicit `MathOps` record.
* Python exceptions that `calculate` can raise are modelled by
  `Except`: `IndexError` from the unguarded `tokens[pos]` read (raised
  exactly when the cursor would read past the last token, i.e. the
  spec's `UnexpectedEndOfInput`), `ZeroDivisionError` (the spec's
  `ArithmeticFailure`), and `ValueError` from `int()`/`float()`.
-/

namespace LFA

/-- Token kinds, from `class TokenType(Enum)` in src/main.py. -/
inductive TokenType where
  | FUNCTION | EXTERN | IF | THEN | ELSE | FOR | IN
  | INTEGER | FLOAT | IDENTIFIER
  | PLUS | MINUS | MULTIPLY | DIVIDE | MODULO | POWER
  | LESS | GREATER | EQUAL | NOT_EQUAL
  | LEFT_PAREN | RIGHT_PAREN | COMMA | SEMICOLON
  | EOF | UNKNOWN
deriving DecidableEq

/-- Python's `Enum.name`: the member's name as a string (used by
`add_token` when no lexeme is supplied). -/
def TokenType.name : TokenType → String
  | .FUNCTION => "FUNCTION"
  | .EXTERN => "EXTERN"
  | .IF => "IF"
  | .THEN => "THEN"
  | .ELSE => "ELSE"
  | .FOR => "FOR"
  | .IN => "IN"
  | .INTEGER => "INTEGER"
  | .FLOAT => "FLOAT"
  | .IDENTIFIER => "IDENTIFIER"
  | .PLUS => "PLUS"
  | .MINUS => "MINUS"
  | .MULTIPLY => "MULTIPLY"
  | .DIVIDE => "DIVIDE"
  | .MODULO => "MODULO"
  | .POWER => "POWER"
  | .LESS => "LESS"
  | .GREATER => "GREATER"
  | .EQUAL => "EQUAL"
  | .NOT_EQUAL => "NOT_EQUAL"
  | .LEFT_PAREN => "LEFT_PAREN"
  | .RIGHT_PAREN => "RIGHT_PAREN"
  | .COMMA => "COMMA"
  | .SEMICOLON => "SEMICOLON"
  | .EOF => "EOF"
  | .UNKNOWN => "UNKNOWN"

/-- `@dataclass class Token` (src/main.py:47-55).  `column` is an `Int`
because Python computes `self.column - len(value)`, which is negative
for the synthetic `EOF` lexeme near the start of a line. -/
structure Token where
  type : TokenType
  value : String
  line : Nat
  column : Int
deriving DecidableEq

/-- ASCII model of Python `str.isspace()`: space, tab, newline,
carriage return, vertical tab, form feed. -/
def pyIsSpace (c : Char) : Bool :=
  decide (c = ' ' ∨ c = '\t' ∨ c = '\n' ∨ c = '\r' ∨ c = '\x0b' ∨ c = '\x0c')

/-- ASCII model of Python `str.isdigit()`. -/
def pyIsDigit (c : Char) : Bool :=
  decide ('0' ≤ c) && decide (c ≤ '9')

/-- ASCII model of Python `str.isalpha()`. -/
def pyIsAlpha (c : Char) : Bool :=
  (decide ('a' ≤ c) && decide (c ≤ 'z')) || (decide ('A' ≤ c) && decide (c ≤ 'Z'))

/-- ASCII model of Python `str.isalnum()`. -/
def pyIsAlnum (c : Char) : Bool :=
  pyIsAlpha c || pyIsDigit c

/-- `self.keywords` (src/main.py:67-75). -/
def keywords : List (String × TokenType) :=
  [("def", .FUNCTION), ("extern", .EXTERN), ("if", .IF), ("then", .THEN),
   ("else", .ELSE), ("for", .FOR), ("in", .IN)]

/-- `self.built_in_functions` (src/main.py:78). -/
def built_in_functions : List String :=
  ["sin", "cos", "tan", "sqrt", "ln", "exp"]

/-- `self.single_char_tokens` (src/main.py:81-95) as an association
list.  Note: no entry for `'!'`. -/
def single_char_list : List (Char × TokenType) :=
  [('+', .PLUS), ('-', .MINUS), ('*', .MULTIPLY), ('/', .DIVIDE), ('%', .MODULO),
   ('^', .POWER), ('<', .LESS), ('>', .GREATER), ('=', .EQUAL),
   ('(', .LEFT_PAREN), (')', .RIGHT_PAREN), (',', .COMMA), (';', .SEMICOLON)]

/-- The dict's membership test / subscript, combined:
`char in self.single_char_tokens` and `self.single_char_tokens[char]`. -/
def single_char_tokens (c : Char) : Option TokenType :=
  single_char_list.lookup c

/-- `add_token` (src/main.py:134-138): an empty `value` is replaced by the
kind's name, and the recorded column is the current column minus the
(replaced) value's length.  `col` is the scanner's column counter at the
moment `add_token` runs. -/
def mkToken (tt : TokenType) (value : String) (line col : Nat) : Token :=
  let v := if value = "" then tt.name else value
  { type := tt, value := v, line := line, column := (col : Int) - (v.length : Int) }

/-- Loop condition character class of `identifier()` (src/main.py:193-194):
`peek().isalnum() or peek() == '_'`. -/
def identChar (c : Char) : Bool :=
  pyIsAlnum c || c == '_'

/-- Negation of the comment terminator: the comment loop of `scan_token`
(src/main.py:160-161) runs `while peek() != '\n' and not is_at_end()`. -/
def notNL (c : Char) : Bool :=
  c != '\n'

/-- Result of the digit-consuming loop of `number()` . -/
structure NumRes where
  consumed : List Char
  rest : List Char
  hasDec : Bool
deriving DecidableEq

/-- The loop of `number()` (src/main.py:216-220): consume digits, and at
most one `'.'` (tracked by `hasDec`, Python's `has_decimal`). -/
def numLoop : List Char → Bool → NumRes
  | [], hd => ⟨[], [], hd⟩
  | d :: ds, hd =>
    if pyIsDigit d then
      let r := numLoop ds hd
      ⟨d :: r.consumed, r.rest, r.hasDec⟩
    else if d == '.' && !hd then
      let r := numLoop ds true
      ⟨d :: r.consumed, r.rest, r.hasDec⟩
    else ⟨[], d :: ds, hd⟩

/-- Result of one `scan_token()` call: the tokens appended (zero or one),
the remaining source suffix, and the updated line/column counters. -/
structure StepRes where
  toks : List Token
  rest : List Char
  line : Nat
  col : Nat
deriving DecidableEq

/-- `scan_token()` (src/main.py:149-229), including the helper methods
`identifier()` and `number()` it dispatches to.  `c` is the character
returned by the leading `advance()` call and `rest` is the source after
it; `line`/`col` are the counters before the `advance()`. -/
def scanStep (c : Char) (rest : List Char) (line col : Nat) : StepRes :=
  -- advance() (src/main.py:101-111)
  let line1 := if c = '\n' then line + 1 else line
  let col1 := if c = '\n' then 1 else col + 1
  -- whitespace is skipped, producing no token
  if pyIsSpace c then ⟨[], rest, line1, col1⟩
  -- '#': comment runs until end of line (newline not consumed here)
  else if c = '#' then
    ⟨[], rest.dropWhile notNL, line1, col1 + (rest.takeWhile notNL).length⟩
  else
    match single_char_tokens c with
    | some tt =>
      -- the two-character '!=' special case (src/main.py:167-168);
      -- unreachable, since '!' is not in single_char_tokens
      if c = '!' then
        match rest with
        | '=' :: rest2 => ⟨[mkToken .NOT_EQUAL "!=" line1 (col1 + 1)], rest2, line1, col1 + 1⟩
        | _ => ⟨[mkToken tt (String.singleton c) line1 col1], rest, line1, col1⟩
      else ⟨[mkToken tt (String.singleton c) line1 col1], rest, line1, col1⟩
    | none =>
      -- identifier() (src/main.py:186-204)
      if pyIsAlpha c || c == '_' then
        let consumed := rest.takeWhile identChar
        let lexeme := String.mk (c :: consumed)
        let col2 := col1 + consumed.length
        let tt := (keywords.lookup lexeme).getD .IDENTIFIER
        ⟨[mkToken tt lexeme line1 col2], rest.dropWhile identChar, line1, col2⟩
      -- number() (src/main.py:206-229)
      else if pyIsDigit c || (c == '.' && (rest.head?.map pyIsDigit).getD false) then
        let r := numLoop rest (c == '.')
        let lexeme := String.mk (c :: r.consumed)
        let col2 := col1 + r.consumed.length
        ⟨[mkToken (if r.hasDec then .FLOAT else .INTEGER) lexeme line1 col2], r.rest, line1, col2⟩
      -- unknown character
      else ⟨[mkToken .UNKNOWN (String.singleton c) line1 col1], rest, line1, col1⟩

/-- `scan_tokens()` (src/main.py:140-147): scan until the end of the
source, then append the `EOF` token.  The fuel drives the `while` loop;
`tokenize` supplies `length + 1`, which is always sufficient because
every `scan_token()` call consumes at least the one character its
leading `advance()` reads. -/
def scanTokensF : Nat → List Char → Nat → Nat → List Token
  | 0, _, _, _ => []
  | _ + 1, [], line, col => [mkToken .EOF "" line col]
  | f + 1, c :: rest, line, col =>
    let r := scanStep c rest line col
    r.toks ++ scanTokensF f r.rest r.line r.col

/-- `Lexer(source).scan_tokens()` (src/main.py:58-64, 140-147): position
starts at 0 (the whole source remains), line and column start at 1. -/
def tokenize (s : String) : List Token :=
  scanTokensF (s.data.length + 1) s.data 1 1

/-- The spec's `tokenize_expr`: tokenize and strip the trailing `EOF`
token, exactly as the demonstration code does with `tokens[:-1]`
(src/main.py:376). -/
def tokenizeExpr (s : String) : List Token :=
  (tokenize s).dropLast

/-- Concatenation of the lexemes of a token list, as characters. -/
def lexcat (ts : List Token) : List Char :=
  ts.foldr (fun t acc => t.value.data ++ acc) []

/-- Modelled from the spec's words for claim C4 ("the source's characters
with all whitespace and all comment content (from `#` through end of
line) removed, in their original order"): the character filter, with
`True` meaning "currently inside a comment". -/
def stripAux : Bool → List Char → List Char
  | _, [] => []
  | true, c :: cs => if c = '\n' then stripAux false cs else stripAux true cs
  | false, c :: cs =>
    if pyIsSpace c then stripAux false cs
    else if c = '#' then stripAux true cs
    else c :: stripAux false cs

/-- The non-whitespace, non-comment content of a source text (spec §3
invariant / §8 first testable property). -/
def stripWsComments (s : List Char) : List Char :=
  stripAux false s

/-! ## The calculator (`calculate`, src/main.py:238-333) -/

/-- A Python number: an `int`, or a `float` modelled as an exact
rational. -/
inductive PyNum where
  | int (n : ℤ)
  | float (q : ℚ)
deriving DecidableEq

/-- Numeric value of a `PyNum` (Python's implicit int→float promotion). -/
def PyNum.toRat : PyNum → ℚ
  | .int n => (n : ℚ)
  | .float q => q

/-- The external real-valued library functions the calculator calls:
`math.sin`, `math.cos`, and the value of `x ** y` for float operands
with a non-integer exponent (not exactly representable, so supplied as
a parameter; no claim depends on these values). -/
structure MathOps where
  sin : ℚ → ℚ
  cos : ℚ → ℚ
  rpow : ℚ → ℚ → ℚ

/-- A concrete, trivial `MathOps` instance, for closed evaluations whose
paths never call the external functions. -/
def mathOpsZero : MathOps :=
  ⟨fun _ => 0, fun _ => 0, fun _ _ => 0⟩

/-- The Python exceptions evaluation can raise, plus the fuel artifact.
`unexpectedEndOfInput` models the `IndexError` raised by the unguarded
`tokens[pos]` read in `primary` (src/main.py:291), which fires exactly
when the cursor would read past the last token — the spec §7's
`UnexpectedEndOfInput`.  `arithmeticFailure` models `ZeroDivisionError`
(§7's `ArithmeticFailure`); `valueError` models `ValueError` from
`int()`/`float()` on a non-numeric lexeme. -/
inductive EvalErr where
  | unexpectedEndOfInput
  | arithmeticFailure
  | valueError
  | outOfFuel
deriving DecidableEq

/-- Python `a + b` on numbers: `int` if both are `int`, else `float`. -/
def pyAdd : PyNum → PyNum → PyNum
  | .int m, .int n => .int (m + n)
  | a, b => .float (a.toRat + b.toRat)

/-- Python `a - b` on numbers. -/
def pySub : PyNum → PyNum → PyNum
  | .int m, .int n => .int (m - n)
  | a, b => .float (a.toRat - b.toRat)

/-- Python `a * b` on numbers. -/
def pyMul : PyNum → PyNum → PyNum
  | .int m, .int n => .int (m * n)
  | a, b => .float (a.toRat * b.toRat)

/-- Python `a / b`: always true division producing a `float`;
`ZeroDivisionError` when `b` is zero. -/
def pyDiv (a b : PyNum) : Except EvalErr PyNum :=
  if b.toRat = 0 then .error .arithmeticFailure
  else .ok (.float (a.toRat / b.toRat))

/-- Python `a % b`: floor-sign modulo; `ZeroDivisionError` when `b` is
zero.  For two `int`s the result is an `int` (`Int.fmod` is Python's
floor-based `%`), otherwise a `float` via `a - b * floor (a / b)`. -/
def pyMod (a b : PyNum) : Except EvalErr PyNum :=
  if b.toRat = 0 then .error .arithmeticFailure
  else match a, b with
    | .int m, .int n => .ok (.int (Int.fmod m n))
    | _, _ => .ok (.float (a.toRat - b.toRat * (⌊a.toRat / b.toRat⌋ : ℤ)))

/-- Python `a ** b`: `int ** int` with nonnegative exponent stays `int`;
a negative exponent produces a `float` (`ZeroDivisionError` on base 0).
With a `float` operand the result is a `float`; a non-integer exponent
falls back to the external real power `ops.rpow`. -/
def pyPow (ops : MathOps) (a b : PyNum) : Except EvalErr PyNum :=
  match a, b with
  | .int m, .int n =>
    if 0 ≤ n then .ok (.int (m ^ n.toNat))
    else if m = 0 then .error .arithmeticFailure
    else .ok (.float ((m : ℚ) ^ n))
  | _, _ =>
    let x := a.toRat
    let y := b.toRat
    if y.den = 1 then
      if 0 ≤ y.num then .ok (.float (x ^ y.num))
      else if x = 0 then .error .arithmeticFailure
      else .ok (.float (x ^ y.num))
    else .ok (.float (ops.rpow x y))

/-- The numeric value of a nonempty all-digit character list. -/
def digitsToNat (ds : List Char) : Option Nat :=
  if ds ≠ [] ∧ ds.all pyIsDigit then
    some (ds.foldl (fun a c => a * 10 + (c.toNat - '0'.toNat)) 0)
  else none

/-- Python `int(s)` on the lexeme strings that can reach it: an optional
sign followed by digits; anything else raises `ValueError`. -/
def pyParseInt (s : String) : Option ℤ :=
  match s.data with
  | '-' :: ds => (digitsToNat ds).map (fun n => -(n : ℤ))
  | '+' :: ds => (digitsToNat ds).map (fun n => (n : ℤ))
  | ds => (digitsToNat ds).map (fun n => (n : ℤ))

/-- Digits of an optional fractional part: `""` means no digits. -/
def fracVal (ds : List Char) : ℚ :=
  (digitsToNat ds).getD 0 / (10 : ℚ) ^ ds.length

/-- Python `float(s)` on the lexeme strings produced by the lexer:
`digits`, `digits.digits`, `digits.`, or `.digits` (with an optional
sign); anything else raises `ValueError`. -/
def pyParseFloat (s : String) : Option ℚ :=
  let core : List Char → Option ℚ := fun ds =>
    let ip := ds.takeWhile pyIsDigit
    match ds.dropWhile pyIsDigit with
    | [] => if ip = [] then none else some ((digitsToNat ip).getD 0 : ℚ)
    | '.' :: fp =>
      if fp.all pyIsDigit ∧ (ip ≠ [] ∨ fp ≠ []) then
        some (((digitsToNat ip).getD 0 : ℚ) + fracVal fp)
      else none
    | _ => none
  match s.data with
  | '-' :: ds => (core ds).map (fun q => -q)
  | '+' :: ds => core ds
  | ds => core ds

/-- Tags for the mutually recursive grammar rules inside `calculate`
(src/main.py:245-330).  The `while` loops of `term` and `factor` are the
tail-recursive `termLoopR`/`factorLoopR` rules carrying the running
left operand, and `powerR`'s trailing `( POWER power )?` is part of the
rule itself, as in the source. -/
inductive Rule where
  | expressionR
  | termR
  | termLoopR (left : PyNum)
  | factorR
  | factorLoopR (left : PyNum)
  | powerR
  | primaryR

/-- The body of `calculate` (src/main.py:238-333): one step function for
the nested grammar-rule closures, indexed by `Rule` and structurally
recursive on a fuel argument (the Python recursion always terminates —
`pos` strictly increases through `primary` — and `calculate` supplies
sufficient fuel for every input it evaluates in this development).
`p` is the shared `pos` cursor; a result pairs the value with the
updated cursor. -/
def evalRule (ops : MathOps) (tokens : List Token) :
    Nat → Rule → Nat → Except EvalErr (PyNum × Nat)
  | 0, _, _ => .error .outOfFuel
  -- def expression(): return term()
  | f + 1, .expressionR, p => evalRule ops tokens f .termR p
  -- def term(): left = factor(); while ... ; return left
  | f + 1, .termR, p =>
    evalRule ops tokens f .factorR p >>= fun a =>
      evalRule ops tokens f (.termLoopR a.1) a.2
  -- while pos < len(tokens) and tokens[pos].type in [PLUS, MINUS]:
  --   op = tokens[pos]; pos_increment(); right = factor(); left +=/-= right
  | f + 1, .termLoopR left, p =>
    match tokens.get? p with
    | some tok =>
      if tok.type ∈ [TokenType.PLUS, TokenType.MINUS] then
        evalRule ops tokens f .factorR (p + 1) >>= fun r =>
          evalRule ops tokens f
            (.termLoopR (if tok.type = .PLUS then pyAdd left r.1 else pySub left r.1)) r.2
      else .ok (left, p)
    | none => .ok (left, p)
  -- def factor(): left = power(); while ... ; return left
  | f + 1, .factorR, p =>
    evalRule ops tokens f .powerR p >>= fun a =>
      evalRule ops tokens f (.factorLoopR a.1) a.2
  -- while pos < len(tokens) and tokens[pos].type in [MULTIPLY, DIVIDE, MODULO]:
  --   op = tokens[pos]; pos_increment(); right = power(); left *=//=/%= right
  | f + 1, .factorLoopR left, p =>
    match tokens.get? p with
    | some tok =>
      if tok.type ∈ [TokenType.MULTIPLY, TokenType.DIVIDE, TokenType.MODULO] then
        evalRule ops tokens f .powerR (p + 1) >>= fun r =>
          (if tok.type = .MULTIPLY then pure (pyMul left r.1)
           else if tok.type = .DIVIDE then pyDiv left r.1
           else pyMod left r.1) >>= fun left2 =>
            evalRule ops tokens f (.factorLoopR left2) r.2
      else .ok (left, p)
    | none => .ok (left, p)
  -- def power(): left = primary(); if POWER: right = power(); return left ** right
  | f + 1, .powerR, p =>
    evalRule ops tokens f .primaryR p >>= fun a =>
      match tokens.get? a.2 with
      | some tok =>
        if tok.type = .POWER then
          evalRule ops tokens f .powerR (a.2 + 1) >>= fun r =>
            pyPow ops a.1 r.1 >>= fun v => .ok (v, r.2)
        else .ok a
      | none => .ok a
  -- def primary(): token = tokens[pos]; pos_increment(); ...
  | f + 1, .primaryR, p =>
    match tokens.get? p with
    | none => .error .unexpectedEndOfInput
    | some token =>
      match token.type with
      | .INTEGER =>
        match pyParseInt token.value with
        | some n => .ok (.int n, p + 1)
        | none => .error .valueError
      | .FLOAT =>
        match pyParseFloat token.value with
        | some q => .ok (.float q, p + 1)
        | none => .error .valueError
      | .IDENTIFIER =>
        if token.value = "sin" then
          match tokens.get? (p + 1) with
          | some t2 =>
            if t2.type = .LEFT_PAREN then
              evalRule ops tokens f .expressionR (p + 2) >>= fun a =>
                match tokens.get? a.2 with
                | some t3 =>
                  if t3.type = .RIGHT_PAREN then .ok (.float (ops.sin a.1.toRat), a.2 + 1)
                  else .ok (.int 0, a.2)
                | none => .ok (.int 0, a.2)
            else .ok (.int 0, p + 1)
          | none => .ok (.int 0, p + 1)
        else if token.value = "cos" then
          match tokens.get? (p + 1) with
          | some t2 =>
            if t2.type = .LEFT_PAREN then
              evalRule ops tokens f .expressionR (p + 2) >>= fun a =>
                match tokens.get? a.2 with
                | some t3 =>
                  if t3.type = .RIGHT_PAREN then .ok (.float (ops.cos a.1.toRat), a.2 + 1)
                  else .ok (.int 0, a.2)
                | none => .ok (.int 0, a.2)
            else .ok (.int 0, p + 1)
          | none => .ok (.int 0, p + 1)
        else .ok (.int 0, p + 1)
      | .LEFT_PAREN =>
        evalRule ops tokens f .expressionR (p + 1) >>= fun a =>
          match tokens.get? a.2 with
          | some t3 =>
            if t3.type = .RIGHT_PAREN then .ok (a.1, a.2 + 1)
            else .ok (.int 0, a.2)
          | none => .ok (.int 0, a.2)
      -- any other token: fall through to `return 0` (src/main.py:326)
      | _ => .ok (.int 0, p + 1)

/-- The `expression()` closure (src/main.py:245-246). -/
def expression (ops : MathOps) (tokens : List Token) (f p : Nat) :
    Except EvalErr (PyNum × Nat) :=
  evalRule ops tokens f .expressionR p

/-- The `primary()` closure (src/main.py:290-326). -/
def primary (ops : MathOps) (tokens : List Token) (f p : Nat) :
    Except EvalErr (PyNum × Nat) :=
  evalRule ops tokens f .primaryR p

/-- Fuel budget `calculate` runs `expression` with; generous, and never
reached by the inputs evaluated in this development. -/
def evalFuel (tokens : List Token) : Nat :=
  8 * tokens.length + 8

/-- `calculate(tokens)` (src/main.py:238-333): evaluate `expression()`
from `pos = 0` and return its value; trailing tokens are not checked. -/
def calculate (ops : MathOps) (tokens : List Token) : Except EvalErr PyNum :=
  (expression ops tokens (evalFuel tokens) 0).map Prod.fst

instance {ε α : Type} [DecidableEq ε] [DecidableEq α] : DecidableEq (Except ε α)
  | .error e1, .error e2 =>
    if h : e1 = e2 then isTrue (by rw [h]) else isFalse (fun hh => by cases hh; exact h rfl)
  | .error _, .ok _ => isFalse (fun h => by cases h)
  | .ok _, .error _ => isFalse (fun h => by cases h)
  | .ok a, .ok b =>
    if h : a = b then isTrue (by rw [h]) else isFalse (fun hh => by cases hh; exact h rfl)

/-! ## Lexer lemmas -/

theorem dropWhile_length_le (p : Char → Bool) (l : List Char) :
    (l.dropWhile p).length ≤ l.length := by
  conv_rhs => rw [← List.takeWhile_append_dropWhile p l]
  rw [List.length_append]
  omega

theorem pyIsSpace_cases {c : Char} (h : pyIsSpace c = true) :
    c = ' ' ∨ c = '\t' ∨ c = '\n' ∨ c = '\r' ∨ c = '\x0b' ∨ c = '\x0c' := by
  simpa only [pyIsSpace, decide_eq_true_eq] using h

theorem ne_nl_of_not_space {c : Char} (h : pyIsSpace c = false) : c ≠ '\n' := by
  rintro rfl
  simp [pyIsSpace] at h

/-- Characters kept by an emitted lexeme are neither whitespace nor the
comment starter, so the spec-side filter keeps them too. -/
theorem keep_of_identChar {c : Char} (h : identChar c = true) :
    pyIsSpace c = false ∧ c ≠ '#' := by
  constructor
  · cases hsp : pyIsSpace c
    · rfl
    · rcases pyIsSpace_cases hsp with rfl | rfl | rfl | rfl | rfl | rfl <;>
        exact absurd h (by decide)
  · rintro rfl
    exact absurd h (by decide)

theorem keep_of_digit_or_dot {c : Char} (h : pyIsDigit c = true ∨ c = '.') :
    pyIsSpace c = false ∧ c ≠ '#' := by
  rcases h with h | rfl
  · constructor
    · cases hsp : pyIsSpace c
      · rfl
      · rcases pyIsSpace_cases hsp with rfl | rfl | rfl | rfl | rfl | rfl <;>
          exact absurd h (by decide)
    · rintro rfl
      exact absurd h (by decide)
  · exact ⟨by decide, by decide⟩

theorem identChar_of_start {c : Char} (h : (pyIsAlpha c || c == '_') = true) :
    identChar c = true := by
  simp only [Bool.or_eq_true] at h
  rcases h with h | h
  · simp [identChar, pyIsAlnum, h]
  · simp [identChar, h]

theorem lookup_mem {α β : Type} [BEq α] [LawfulBEq α] :
    ∀ {l : List (α × β)} {a : α} {b : β}, l.lookup a = some b → (a, b) ∈ l
  | [], _, _, h => by simp [List.lookup] at h
  | (k, v) :: es, a, b, h => by
    simp only [List.lookup] at h
    cases hk : a == k with
    | true =>
      rw [hk] at h
      injection h with hv
      subst hv
      have : a = k := eq_of_beq hk
      subst this
      simp
    | false =>
      rw [hk] at h
      exact List.mem_cons_of_mem _ (lookup_mem h)

theorem single_char_tokens_facts {c : Char} {tt : TokenType}
    (h : single_char_tokens c = some tt) :
    pyIsSpace c = false ∧ c ≠ '#' ∧ c ≠ '!' ∧ tt ≠ .NOT_EQUAL ∧ tt ≠ .EOF := by
  have hall : ∀ x ∈ single_char_list,
      pyIsSpace x.1 = false ∧ x.1 ≠ '#' ∧ x.1 ≠ '!' ∧
      x.2 ≠ TokenType.NOT_EQUAL ∧ x.2 ≠ TokenType.EOF := by
    decide
  exact hall (c, tt) (lookup_mem h)

theorem keywords_lookup_facts (s : String) :
    (keywords.lookup s).getD .IDENTIFIER ≠ TokenType.NOT_EQUAL ∧
    (keywords.lookup s).getD .IDENTIFIER ≠ TokenType.EOF := by
  unfold keywords
  simp only [List.lookup]
  repeat' split
  all_goals decide

theorem numLoop_decomp (ds : List Char) (hd : Bool) :
    (numLoop ds hd).consumed ++ (numLoop ds hd).rest = ds := by
  induction ds generalizing hd with
  | nil => rfl
  | cons d ds ih =>
    simp only [numLoop]
    split_ifs <;> simp [ih]

theorem numLoop_consumed_mem (ds : List Char) (hd : Bool) :
    ∀ x ∈ (numLoop ds hd).consumed, pyIsDigit x = true ∨ x = '.' := by
  induction ds generalizing hd with
  | nil => intro x hx; exact absurd hx (by simp [numLoop])
  | cons d ds ih =>
    intro x hx
    simp only [numLoop] at hx
    split_ifs at hx with h1 h2
    · rcases List.mem_cons.mp hx with rfl | hx
      · exact Or.inl h1
      · exact ih hd x hx
    · rcases List.mem_cons.mp hx with rfl | hx
      · simp only [Bool.and_eq_true, beq_iff_eq] at h2
        exact Or.inr h2.1
      · exact ih true x hx
    · exact absurd hx (by simp)

theorem numLoop_rest_le (ds : List Char) (hd : Bool) :
    (numLoop ds hd).rest.length ≤ ds.length := by
  conv_rhs => rw [← numLoop_decomp ds hd]
  rw [List.length_append]
  omega

theorem stripAux_true_eq (cs : List Char) :
    stripAux true cs = stripAux false (cs.dropWhile notNL) := by
  induction cs with
  | nil => rfl
  | cons c cs ih =>
    by_cases h : c = '\n'
    · subst h
      rfl
    · have hn : notNL c = true := by simp [notNL, h]
      simp only [stripAux, if_neg h, List.dropWhile_cons, hn, if_true, ih]

theorem strip_append_kept (pre suf : List Char)
    (h : ∀ x ∈ pre, pyIsSpace x = false ∧ x ≠ '#') :
    stripAux false (pre ++ suf) = pre ++ stripAux false suf := by
  induction pre with
  | nil => rfl
  | cons c pre ih =>
    have hc := h c (by simp)
    simp only [List.cons_append, stripAux, hc.1, Bool.false_eq_true, if_false, hc.2,
      List.cons.injEq, true_and]
    exact ih (fun x hx => h x (by simp [hx]))

theorem stripAux_cons_kept {c : Char} (cs : List Char)
    (h1 : pyIsSpace c = false) (h2 : c ≠ '#') :
    stripAux false (c :: cs) = c :: stripAux false cs := by
  simp [stripAux, h1, h2]

theorem mkToken_type (tt : TokenType) (v : String) (l c : Nat) :
    (mkToken tt v l c).type = tt := by
  simp [mkToken]

theorem mkToken_value_of_ne (tt : TokenType) (v : String) (l c : Nat) (h : v ≠ "") :
    (mkToken tt v l c).value = v := by
  simp [mkToken, h]

theorem singleton_data (c : Char) : (String.singleton c).data = [c] := rfl

theorem singleton_ne_empty (c : Char) : String.singleton c ≠ "" := by
  intro h
  have h2 := congrArg String.data h
  simp [String.singleton, String.push] at h2

theorem mk_cons_ne_empty (c : Char) (cs : List Char) : String.mk (c :: cs) ≠ "" := by
  intro h
  have h2 := congrArg String.data h
  simp at h2

theorem lexcat_append (a b : List Token) : lexcat (a ++ b) = lexcat a ++ lexcat b := by
  induction a with
  | nil => rfl
  | cons t a ih => simp [lexcat] at ih ⊢; simp [ih]

/-! Branch equations for `scanStep`.  In every branch other than the
whitespace one the scanned character is not a newline, so the
`advance()` bookkeeping is `line1 = line`, `col1 = col + 1`. -/

theorem scanStep_eq_space {c : Char} (rest : List Char) (l k : Nat)
    (h : pyIsSpace c = true) :
    scanStep c rest l k =
      ⟨[], rest, if c = '\n' then l + 1 else l, if c = '\n' then 1 else k + 1⟩ := by
  simp [scanStep, h]

theorem scanStep_eq_hash (rest : List Char) (l k : Nat) :
    scanStep '#' rest l k =
      ⟨[], rest.dropWhile notNL, l, k + 1 + (rest.takeWhile notNL).length⟩ := rfl

theorem scanStep_eq_single {c : Char} {tt : TokenType} (rest : List Char) (l k : Nat)
    (hsp : pyIsSpace c = false) (hh : c ≠ '#') (hsc : single_char_tokens c = some tt)
    (hb : c ≠ '!') :
    scanStep c rest l k =
      ⟨[mkToken tt (String.singleton c) l (k + 1)], rest, l, k + 1⟩ := by
  have hnl := ne_nl_of_not_space hsp
  simp [scanStep, hsp, hh, hsc, hb, hnl]

theorem scanStep_eq_ident {c : Char} (rest : List Char) (l k : Nat)
    (hsp : pyIsSpace c = false) (hh : c ≠ '#') (hsc : single_char_tokens c = none)
    (hid : (pyIsAlpha c || c == '_') = true) :
    scanStep c rest l k =
      ⟨[mkToken ((keywords.lookup (String.mk (c :: rest.takeWhile identChar))).getD .IDENTIFIER)
          (String.mk (c :: rest.takeWhile identChar)) l (k + 1 + (rest.takeWhile identChar).length)],
        rest.dropWhile identChar, l, k + 1 + (rest.takeWhile identChar).length⟩ := by
  have hnl := ne_nl_of_not_space hsp
  simp [scanStep, hsp, hh, hsc, hid, hnl]

theorem scanStep_eq_num {c : Char} (rest : List Char) (l k : Nat)
    (hsp : pyIsSpace c = false) (hh : c ≠ '#') (hsc : single_char_tokens c = none)
    (hid : ¬(pyIsAlpha c || c == '_') = true)
    (hnum : (pyIsDigit c || (c == '.' && (rest.head?.map pyIsDigit).getD false)) = true) :
    scanStep c rest l k =
      ⟨[mkToken (if (numLoop rest (c == '.')).hasDec then .FLOAT else .INTEGER)
          (String.mk (c :: (numLoop rest (c == '.')).consumed)) l
          (k + 1 + (numLoop rest (c == '.')).consumed.length)],
        (numLoop rest (c == '.')).rest, l, k + 1 + (numLoop rest (c == '.')).consumed.length⟩ := by
  have hnl := ne_nl_of_not_space hsp
  simp [scanStep, hsp, hh, hsc, hid, hnum, hnl]

theorem scanStep_eq_unknown {c : Char} (rest : List Char) (l k : Nat)
    (hsp : pyIsSpace c = false) (hh : c ≠ '#') (hsc : single_char_tokens c = none)
    (hid : ¬(pyIsAlpha c || c == '_') = true)
    (hnum : ¬(pyIsDigit c || (c == '.' && (rest.head?.map pyIsDigit).getD false)) = true) :
    scanStep c rest l k =
      ⟨[mkToken .UNKNOWN (String.singleton c) l (k + 1)], rest, l, k + 1⟩ := by
  have hnl := ne_nl_of_not_space hsp
  simp [scanStep, hsp, hh, hsc, hid, hnum, hnl]

/-- One scanning step consumes at least the character handed to
`scan_token` by its leading `advance()`; what remains never grows. -/
theorem scanStep_rest_le (c : Char) (rest : List Char) (l k : Nat) :
    (scanStep c rest l k).rest.length ≤ rest.length := by
  by_cases hsp : pyIsSpace c = true
  · rw [scanStep_eq_space rest l k hsp]
  · rw [Bool.not_eq_true] at hsp
    by_cases hh : c = '#'
    · subst hh
      rw [scanStep_eq_hash]
      exact dropWhile_length_le _ _
    · cases hsc : single_char_tokens c with
      | some tt =>
        obtain ⟨-, -, hb, -, -⟩ := single_char_tokens_facts hsc
        rw [scanStep_eq_single rest l k hsp hh hsc hb]
      | none =>
        by_cases hid : (pyIsAlpha c || c == '_') = true
        · rw [scanStep_eq_ident rest l k hsp hh hsc hid]
          exact dropWhile_length_le _ _
        · by_cases hnum : (pyIsDigit c || (c == '.' && (rest.head?.map pyIsDigit).getD false)) = true
          · rw [scanStep_eq_num rest l k hsp hh hsc hid hnum]
            exact numLoop_rest_le _ _
          · rw [scanStep_eq_unknown rest l k hsp hh hsc hid hnum]

/-- One scanning step never emits an `EOF` or `NOT_EQUAL` token (the
`NOT_EQUAL` branch requires `'!' ∈ single_char_tokens`, which fails). -/
theorem scanStep_toks_types (c : Char) (rest : List Char) (l k : Nat) :
    ∀ t ∈ (scanStep c rest l k).toks, t.type ≠ TokenType.EOF ∧ t.type ≠ TokenType.NOT_EQUAL := by
  by_cases hsp : pyIsSpace c = true
  · rw [scanStep_eq_space rest l k hsp]
    simp
  · rw [Bool.not_eq_true] at hsp
    by_cases hh : c = '#'
    · subst hh
      rw [scanStep_eq_hash]
      simp
    · cases hsc : single_char_tokens c with
      | some tt =>
        obtain ⟨-, -, hb, hne, heof⟩ := single_char_tokens_facts hsc
        rw [scanStep_eq_single rest l k hsp hh hsc hb]
        intro t ht
        simp only [List.mem_singleton] at ht
        subst ht
        rw [mkToken_type]
        exact ⟨heof, hne⟩
      | none =>
        by_cases hid : (pyIsAlpha c || c == '_') = true
        · rw [scanStep_eq_ident rest l k hsp hh hsc hid]
          intro t ht
          simp only [List.mem_singleton] at ht
          subst ht
          rw [mkToken_type]
          exact ⟨(keywords_lookup_facts _).2, (keywords_lookup_facts _).1⟩
        · by_cases hnum : (pyIsDigit c || (c == '.' && (rest.head?.map pyIsDigit).getD false)) = true
          · rw [scanStep_eq_num rest l k hsp hh hsc hid hnum]
            intro t ht
            simp only [List.mem_singleton] at ht
            subst ht
            rw [mkToken_type]
            split <;> exact ⟨by decide, by decide⟩
          · rw [scanStep_eq_unknown rest l k hsp hh hsc hid hnum]
            intro t ht
            simp only [List.mem_singleton] at ht
            subst ht
            rw [mkToken_type]
            exact ⟨by decide, by decide⟩

/-- The lexeme(s) a scanning step emits, followed by the filtered rest,
are exactly the filtered input: the per-step case of claim C4. -/
theorem scanStep_lexcat (c : Char) (rest : List Char) (l k : Nat) :
    lexcat (scanStep c rest l k).toks ++ stripWsComments (scanStep c rest l k).rest
      = stripWsComments (c :: rest) := by
  by_cases hsp : pyIsSpace c = true
  · rw [scanStep_eq_space rest l k hsp]
    show stripAux false rest = stripAux false (c :: rest)
    simp [stripAux, hsp]
  · rw [Bool.not_eq_true] at hsp
    by_cases hh : c = '#'
    · subst hh
      rw [scanStep_eq_hash]
      show stripAux false (rest.dropWhile notNL) = stripAux false ('#' :: rest)
      rw [show stripAux false ('#' :: rest) = stripAux true rest by simp [stripAux, pyIsSpace]]
      exact (stripAux_true_eq rest).symm
    · cases hsc : single_char_tokens c with
      | some tt =>
        obtain ⟨-, -, hb, -, -⟩ := single_char_tokens_facts hsc
        rw [scanStep_eq_single rest l k hsp hh hsc hb]
        show lexcat [mkToken tt (String.singleton c) l (k + 1)] ++ stripAux false rest
            = stripAux false (c :: rest)
        rw [stripAux_cons_kept rest hsp hh]
        simp [lexcat, mkToken_value_of_ne tt (String.singleton c) l (k + 1)
          (singleton_ne_empty c), singleton_data]
      | none =>
        by_cases hid : (pyIsAlpha c || c == '_') = true
        · rw [scanStep_eq_ident rest l k hsp hh hsc hid]
          have hkeepc := keep_of_identChar (identChar_of_start hid)
          show lexcat [mkToken _ (String.mk (c :: rest.takeWhile identChar)) l _] ++
              stripAux false (rest.dropWhile identChar) = stripAux false (c :: rest)
          rw [stripAux_cons_kept rest hkeepc.1 hkeepc.2]
          simp only [lexcat, List.foldr_cons, List.foldr_nil, List.append_nil,
            mkToken_value_of_ne _ (String.mk (c :: rest.takeWhile identChar)) _ _
              (mk_cons_ne_empty _ _)]
          show (c :: rest.takeWhile identChar) ++ stripAux false (rest.dropWhile identChar)
              = c :: stripAux false rest
          rw [List.cons_append]
          congr 1
          conv_rhs => rw [← List.takeWhile_append_dropWhile identChar rest]
          exact (strip_append_kept _ _
            (fun x hx => keep_of_identChar (List.mem_takeWhile_imp hx))).symm
        · by_cases hnum : (pyIsDigit c || (c == '.' && (rest.head?.map pyIsDigit).getD false)) = true
          · rw [scanStep_eq_num rest l k hsp hh hsc hid hnum]
            have hkeepc : pyIsSpace c = false ∧ c ≠ '#' := by
              apply keep_of_digit_or_dot
              simp only [Bool.or_eq_true, Bool.and_eq_true, beq_iff_eq] at hnum
              rcases hnum with h | h
              · exact Or.inl h
              · exact Or.inr h.1
            show lexcat [mkToken _ (String.mk (c :: (numLoop rest (c == '.')).consumed)) l _] ++
                stripAux false (numLoop rest (c == '.')).rest = stripAux false (c :: rest)
            rw [stripAux_cons_kept rest hkeepc.1 hkeepc.2]
            simp only [lexcat, List.foldr_cons, List.foldr_nil, List.append_nil,
              mkToken_value_of_ne _ (String.mk (c :: (numLoop rest (c == '.')).consumed)) _ _
                (mk_cons_ne_empty _ _)]
            show (c :: (numLoop rest (c == '.')).consumed) ++
                stripAux false (numLoop rest (c == '.')).rest = c :: stripAux false rest
            rw [List.cons_append]
            congr 1
            conv_rhs => rw [← numLoop_decomp rest (c == '.')]
            exact (strip_append_kept _ _
              (fun x hx => keep_of_digit_or_dot (numLoop_consumed_mem _ _ x hx))).symm
          · rw [scanStep_eq_unknown rest l k hsp hh hsc hid hnum]
            show lexcat [mkToken .UNKNOWN (String.singleton c) l (k + 1)] ++ stripAux false rest
                = stripAux false (c :: rest)
            rw [stripAux_cons_kept rest hsp hh]
            simp [lexcat, mkToken_value_of_ne .UNKNOWN (String.singleton c) l (k + 1)
              (singleton_ne_empty c), singleton_data]

/-- Invariants of the scanning loop, proved together by induction on the
fuel (which `tokenize` always supplies in sufficient amount): the token
list is nonempty, ends with an `EOF` token, contains exactly one
`EOF` and no `NOT_EQUAL`, and its lexemes (without the final `EOF`)
concatenate to the filtered source. -/
theorem scanTokensF_props :
    ∀ f cs, cs.length < f → ∀ l k,
      scanTokensF f cs l k ≠ [] ∧
      (scanTokensF f cs l k).getLast?.map Token.type = some TokenType.EOF ∧
      (scanTokensF f cs l k).countP (fun t => decide (t.type = TokenType.EOF)) = 1 ∧
      TokenType.NOT_EQUAL ∉ (scanTokensF f cs l k).map Token.type ∧
      lexcat ((scanTokensF f cs l k).dropLast) = stripWsComments cs := by
  intro f
  induction f with
  | zero => intro cs h; omega
  | succ f ih =>
    intro cs h l k
    match cs with
    | [] =>
      refine ⟨by simp [scanTokensF], ?_, ?_, ?_, ?_⟩
      · simp [scanTokensF, mkToken_type]
      · simp [scanTokensF, List.countP, List.countP.go, mkToken_type]
      · simp [scanTokensF, mkToken_type]
      · simp [scanTokensF, lexcat, stripWsComments, stripAux]
    | c :: rest =>
      have hlen : (scanStep c rest l k).rest.length < f := by
        have h1 := scanStep_rest_le c rest l k
        simp only [List.length_cons] at h
        omega
      obtain ⟨ihne, ihlast, ihcount, ihnoteq, ihcat⟩ :=
        ih _ hlen (scanStep c rest l k).line (scanStep c rest l k).col
      have heq : scanTokensF (f + 1) (c :: rest) l k =
          (scanStep c rest l k).toks ++
            scanTokensF f (scanStep c rest l k).rest (scanStep c rest l k).line
              (scanStep c rest l k).col := rfl
      rw [heq]
      refine ⟨?_, ?_, ?_, ?_, ?_⟩
      · intro happ
        exact ihne (List.append_eq_nil.mp happ).2
      · rw [List.getLast?_append_of_ne_nil _ ihne]
        exact ihlast
      · rw [List.countP_append, ihcount]
        have h0 : (scanStep c rest l k).toks.countP
            (fun t => decide (t.type = TokenType.EOF)) = 0 := by
          rw [List.countP_eq_zero]
          intro t ht
          simpa using (scanStep_toks_types c rest l k t ht).1
        omega
      · rw [List.map_append, List.mem_append]
        rintro (hmem | hmem)
        · obtain ⟨t, ht, htype⟩ := List.mem_map.mp hmem
          exact (scanStep_toks_types c rest l k t ht).2 htype
        · exact ihnoteq hmem
      · rw [List.dropLast_append_of_ne_nil _ ihne, lexcat_append, ihcat, scanStep_lexcat]

/-! ## Evaluator lemmas -/

theorem except_bind_ok {ε α β : Type} {e : Except ε α} {g : α → Except ε β} {b : β}
    (h : (e >>= g) = .ok b) : ∃ a, e = .ok a ∧ g a = .ok b := by
  cases e with
  | error err => exact absurd h (by simp [Bind.bind, Except.bind])
  | ok a => exact ⟨a, rfl, h⟩

theorem ok_inj {α : Type} {x y : α} {ε : Type}
    (h : (Except.ok x : Except ε α) = .ok y) : x = y := by
  injection h

/-- Cursor discipline of the evaluator (claim C2's universal part): an
`ok` result never moves the cursor backwards and never moves it past the
end of the token sequence. -/
theorem ok_pair_inj {ε : Type} {x : PyNum × Nat} {v : PyNum} {p2 : Nat}
    (h : (Except.ok x : Except ε (PyNum × Nat)) = .ok (v, p2)) : x.1 = v ∧ x.2 = p2 := by
  injection h with h2
  exact ⟨congrArg Prod.fst h2, congrArg Prod.snd h2⟩

theorem evalRule_bounds :
    ∀ f (ops : MathOps) (tokens : List Token) (r : Rule) (p : Nat) (v : PyNum) (p2 : Nat),
      p ≤ tokens.length → evalRule ops tokens f r p = .ok (v, p2) →
      p ≤ p2 ∧ p2 ≤ tokens.length := by
  intro f
  induction f with
  | zero =>
    intro ops tokens r p v p2 hp h
    exact absurd h (by simp [evalRule])
  | succ f ih =>
    intro ops tokens r p v p2 hp h
    cases r with
    | expressionR => exact ih ops tokens .termR p v p2 hp h
    | termR =>
      simp only [evalRule] at h
      obtain ⟨a, h1, h⟩ := except_bind_ok h
      have hb1 := ih ops tokens .factorR p a.1 a.2 hp h1
      have hb2 := ih ops tokens (.termLoopR a.1) a.2 v p2 hb1.2 h
      exact ⟨le_trans hb1.1 hb2.1, hb2.2⟩
    | termLoopR left =>
      simp only [evalRule] at h
      split at h
      · rename_i tok heq
        obtain ⟨hlt, -⟩ := List.get?_eq_some.mp heq
        split at h
        · obtain ⟨r, h1, h⟩ := except_bind_ok h
          have hb1 := ih ops tokens .factorR (p + 1) r.1 r.2 (by omega) h1
          have hb2 := ih ops tokens (.termLoopR _) r.2 v p2 hb1.2 h
          exact ⟨by omega, hb2.2⟩
        · obtain ⟨-, rfl⟩ := ok_pair_inj h
          exact ⟨le_refl p, hp⟩
      · obtain ⟨-, rfl⟩ := ok_pair_inj h
        exact ⟨le_refl p, hp⟩
    | factorR =>
      simp only [evalRule] at h
      obtain ⟨a, h1, h⟩ := except_bind_ok h
      have hb1 := ih ops tokens .powerR p a.1 a.2 hp h1
      have hb2 := ih ops tokens (.factorLoopR a.1) a.2 v p2 hb1.2 h
      exact ⟨le_trans hb1.1 hb2.1, hb2.2⟩
    | factorLoopR left =>
      simp only [evalRule] at h
      split at h
      · rename_i tok heq
        obtain ⟨hlt, -⟩ := List.get?_eq_some.mp heq
        split at h
        · obtain ⟨r, h1, h⟩ := except_bind_ok h
          obtain ⟨left2, h2, h⟩ := except_bind_ok h
          have hb1 := ih ops tokens .powerR (p + 1) r.1 r.2 (by omega) h1
          have hb2 := ih ops tokens (.factorLoopR left2) r.2 v p2 hb1.2 h
          exact ⟨by omega, hb2.2⟩
        · obtain ⟨-, rfl⟩ := ok_pair_inj h
          exact ⟨le_refl p, hp⟩
      · obtain ⟨-, rfl⟩ := ok_pair_inj h
        exact ⟨le_refl p, hp⟩
    | powerR =>
      simp only [evalRule] at h
      obtain ⟨a, h1, h⟩ := except_bind_ok h
      have hb1 := ih ops tokens .primaryR p a.1 a.2 hp h1
      split at h
      · rename_i tok heq
        obtain ⟨hlt, -⟩ := List.get?_eq_some.mp heq
        split at h
        · obtain ⟨r, h2, h⟩ := except_bind_ok h
          obtain ⟨vv, h3, h⟩ := except_bind_ok h
          obtain ⟨-, rfl⟩ := ok_pair_inj h
          have hb2 := ih ops tokens .powerR (a.2 + 1) r.1 r.2 (by omega) h2
          exact ⟨by omega, by omega⟩
        · obtain ⟨-, rfl⟩ := ok_pair_inj h
          exact hb1
      · obtain ⟨-, rfl⟩ := ok_pair_inj h
        exact hb1
    | primaryR =>
      simp only [evalRule] at h
      split at h
      · exact absurd h (by simp)
      · rename_i token heq
        obtain ⟨hlt, -⟩ := List.get?_eq_some.mp heq
        split at h
        -- INTEGER
        · split at h
          · obtain ⟨-, rfl⟩ := ok_pair_inj h
            exact ⟨by omega, by omega⟩
          · exact absurd h (by simp)
        -- FLOAT
        · split at h
          · obtain ⟨-, rfl⟩ := ok_pair_inj h
            exact ⟨by omega, by omega⟩
          · exact absurd h (by simp)
        -- IDENTIFIER
        · split at h
          · -- "sin"
            split at h
            · rename_i t2 heq2
              obtain ⟨hlt2, -⟩ := List.get?_eq_some.mp heq2
              split at h
              · obtain ⟨a, h2, h⟩ := except_bind_ok h
                have hb1 := ih ops tokens .expressionR (p + 2) a.1 a.2 (by omega) h2
                split at h
                · rename_i t3 heq3
                  obtain ⟨hlt3, -⟩ := List.get?_eq_some.mp heq3
                  split at h
                  · obtain ⟨-, rfl⟩ := ok_pair_inj h
                    exact ⟨by omega, by omega⟩
                  · obtain ⟨-, rfl⟩ := ok_pair_inj h
                    exact ⟨by omega, hb1.2⟩
                · obtain ⟨-, rfl⟩ := ok_pair_inj h
                  exact ⟨by omega, hb1.2⟩
              · obtain ⟨-, rfl⟩ := ok_pair_inj h
                exact ⟨by omega, by omega⟩
            · obtain ⟨-, rfl⟩ := ok_pair_inj h
              exact ⟨by omega, by omega⟩
          · split at h
            · -- "cos"
              split at h
              · rename_i t2 heq2
                obtain ⟨hlt2, -⟩ := List.get?_eq_some.mp heq2
                split at h
                · obtain ⟨a, h2, h⟩ := except_bind_ok h
                  have hb1 := ih ops tokens .expressionR (p + 2) a.1 a.2 (by omega) h2
                  split at h
                  · rename_i t3 heq3
                    obtain ⟨hlt3, -⟩ := List.get?_eq_some.mp heq3
                    split at h
                    · obtain ⟨-, rfl⟩ := ok_pair_inj h
                      exact ⟨by omega, by omega⟩
                    · obtain ⟨-, rfl⟩ := ok_pair_inj h
                      exact ⟨by omega, hb1.2⟩
                  · obtain ⟨-, rfl⟩ := ok_pair_inj h
                    exact ⟨by omega, hb1.2⟩
                · obtain ⟨-, rfl⟩ := ok_pair_inj h
                  exact ⟨by omega, by omega⟩
              · obtain ⟨-, rfl⟩ := ok_pair_inj h
                exact ⟨by omega, by omega⟩
            · -- other identifier: return 0
              obtain ⟨-, rfl⟩ := ok_pair_inj h
              exact ⟨by omega, by omega⟩
        -- LEFT_PAREN
        · obtain ⟨a, h2, h⟩ := except_bind_ok h
          have hb1 := ih ops tokens .expressionR (p + 1) a.1 a.2 (by omega) h2
          split at h
          · rename_i t3 heq3
            obtain ⟨hlt3, -⟩ := List.get?_eq_some.mp heq3
            split at h
            · obtain ⟨-, rfl⟩ := ok_pair_inj h
              exact ⟨by omega, by omega⟩
            · obtain ⟨-, rfl⟩ := ok_pair_inj h
              exact ⟨by omega, hb1.2⟩
          · obtain ⟨-, rfl⟩ := ok_pair_inj h
            exact ⟨by omega, hb1.2⟩
        -- any other token type: return 0
        · obtain ⟨-, rfl⟩ := ok_pair_inj h
          exact ⟨by omega, by omega⟩

/-! ## Claims -/

/-- Claim C1 (the code violates it): for the token sequence of
`"foo(1)"`, where a primary meets an identifier that is not a recognized
built-in function, the evaluator does NOT signal an `UnexpectedToken`
failure: it substitutes the default value 0 (`return 0`,
src/main.py:326) and succeeds. -/
theorem claim_C1_code_returns_zero :
    ∀ ops : MathOps, calculate ops (tokenizeExpr "foo(1)") = .ok (.int 0) := by
  intro ops
  with_unfolding_all rfl

/-- Claim C2: the evaluator's cursor is monotone and never moves past
the end of the token sequence, and a grammar rule that would have to
read past the last token (the token sequence of `"2 +"`, or the empty
sequence) fails with `unexpectedEndOfInput` — the error raised by the
`tokens[pos]` read — rather than producing a value. -/
theorem claim_C2_cursor_safety :
    (∀ (ops : MathOps) (tokens : List Token) (f p : Nat) (v : PyNum) (p2 : Nat),
        p ≤ tokens.length → expression ops tokens f p = .ok (v, p2) →
        p ≤ p2 ∧ p2 ≤ tokens.length) ∧
    (∀ ops : MathOps, calculate ops [] = .error .unexpectedEndOfInput) ∧
    (∀ ops : MathOps, calculate ops (tokenizeExpr "2 +") = .error .unexpectedEndOfInput) := by
  refine ⟨?_, ?_, ?_⟩
  · intro ops tokens f p v p2 hp h
    exact evalRule_bounds f ops tokens .expressionR p v p2 hp h
  · intro ops
    with_unfolding_all rfl
  · intro ops
    with_unfolding_all rfl

theorem claim_C2_cursor_safety_witness :
    (0 : Nat) ≤ 1 ∧ 1 ≤ (tokenizeExpr "2").length :=
  claim_C2_cursor_safety.1 mathOpsZero (tokenizeExpr "2") 16 0 (.int 2) 1
    (by decide) (by with_unfolding_all rfl)

/-- Claim C3 (counterexample): tokenizing the empty string does return a
single `EOF` token at line 1, but its recorded column is not 1. -/
theorem claim_C3_counterexample :
    ¬ ∃ t : Token, tokenize "" = [t] ∧ t.type = .EOF ∧ t.line = 1 ∧ t.column = 1 := by
  rintro ⟨t, h, -, -, hcol⟩
  have h2 : tokenize "" = [{ type := .EOF, value := "EOF", line := 1, column := -2 }] := by
    decide
  rw [h2] at h
  injection h with h3 h4
  rw [← h3] at hcol
  exact absurd hcol (by decide)

/-- Claim C3 (amended): tokenizing the empty string returns exactly one
token, of kind `EOF`, at line 1 — but with recorded column `-2`, because
`add_token` substitutes the lexeme `"EOF"` for the empty value and then
records `column - len("EOF") = 1 - 3`. -/
theorem claim_C3_amended :
    tokenize "" = [{ type := .EOF, value := "EOF", line := 1, column := -2 }] := by
  decide

/-- Claim C4: concatenating the lexemes of all tokens except the final
`EOF`, in order, reproduces exactly the source's characters with all
whitespace and all comment content (from `#` through end of line)
removed, in their original order. -/
theorem claim_C4_lexeme_concat :
    ∀ s : String, lexcat ((tokenize s).dropLast) = stripWsComments s.data := by
  intro s
  obtain ⟨-, -, -, -, hcat⟩ := scanTokensF_props (s.data.length + 1) s.data (by omega) 1 1
  exact hcat

/-- Claim C5: tokenization terminates for every source string — each
scanning step consumes at least one character, so the remaining suffix
shrinks (third conjunct) — and the returned sequence ends in an `EOF`
token that occurs exactly once. -/
theorem claim_C5_eof_termination :
    ∀ s : String,
      (tokenize s).getLast?.map Token.type = some TokenType.EOF ∧
      (tokenize s).countP (fun t => decide (t.type = TokenType.EOF)) = 1 ∧
      (∀ (c : Char) (rest : List Char) (l k : Nat),
        (scanStep c rest l k).rest.length ≤ rest.length) := by
  intro s
  obtain ⟨-, hlast, hcount, -, -⟩ := scanTokensF_props (s.data.length + 1) s.data (by omega) 1 1
  exact ⟨hlast, hcount, fun c rest l k => scanStep_rest_le c rest l k⟩

/-- Claim C6: four-level precedence with the documented associativities:
`2 + 3 * 4 - 5 / 2 = 11.5` (a float, since `/` is true division),
`2 ^ 3 ^ 2 = 2 ^ (3 ^ 2) = 512` (right-associative), and
`(2 + 3) * 4 = 20`.  Independent of the external `MathOps`. -/
theorem claim_C6_precedence :
    ∀ ops : MathOps,
      calculate ops (tokenizeExpr "2 + 3 * 4 - 5 / 2") = .ok (.float (23 / 2)) ∧
      (23 / 2 : ℚ) = 11.5 ∧
      calculate ops (tokenizeExpr "2 ^ 3 ^ 2") = .ok (.int 512) ∧
      calculate ops (tokenizeExpr "(2 + 3) * 4") = .ok (.int 20) := by
  intro ops
  exact ⟨by with_unfolding_all rfl, by norm_num, by with_unfolding_all rfl,
    by with_unfolding_all rfl⟩

/-- Claim C7: division (and modulo) by zero is a runtime arithmetic
failure surfaced to the caller — evaluating the tokens of `"2 / 0"`
(and `"2 % 0"`) produces `arithmeticFailure`, not a substitute value. -/
theorem claim_C7_div_zero :
    ∀ ops : MathOps,
      calculate ops (tokenizeExpr "2 / 0") = .error .arithmeticFailure ∧
      calculate ops (tokenizeExpr "2 % 0") = .error .arithmeticFailure := by
  intro ops
  exact ⟨by with_unfolding_all rfl, by with_unfolding_all rfl⟩

/-- Claim C8: no input ever produces a `NOT_EQUAL` token — `'!'` is not
in the single-character dispatch table, so the `'!='` branch is dead —
and a `'!'` character produces an `UNKNOWN` token with lexeme `"!"`,
whatever follows it (even `'='`). -/
theorem claim_C8_no_not_equal :
    (∀ s : String, TokenType.NOT_EQUAL ∉ (tokenize s).map Token.type) ∧
    (∀ (rest : List Char) (l k : Nat),
      scanStep '!' rest l k =
        ⟨[{ type := .UNKNOWN, value := "!", line := l, column := (k : Int) }], rest, l, k + 1⟩) := by
  constructor
  · intro s
    obtain ⟨-, -, -, hne, -⟩ := scanTokensF_props (s.data.length + 1) s.data (by omega) 1 1
    exact hne
  · intro rest l k
    have hc : ((k + 1 : Nat) : Int) - ((String.singleton '!').length : Int) = (k : Int) := by
      rw [show ((String.singleton '!').length : Int) = 1 from rfl]
      omega
    have h1 : mkToken .UNKNOWN (String.singleton '!') l (k + 1)
        = { type := .UNKNOWN, value := "!", line := l, column := (k : Int) } := by
      simp only [mkToken, if_neg (singleton_ne_empty '!')]
      rw [hc]
      with_unfolding_all rfl
    rw [show scanStep '!' rest l k
        = ⟨[mkToken .UNKNOWN (String.singleton '!') l (k + 1)], rest, l, k + 1⟩ from rfl, h1]

/-- Claim C9: an identifier from `built_in_functions` other than `"sin"`
and `"cos"` (so `"tan"`, `"sqrt"`, `"ln"`, `"exp"`) is handled by
`primary` exactly like any unrecognized identifier: the token is
consumed and the default 0 is returned, the function list never being
consulted; concretely, `tan(1)` and `sqrt(1)` evaluate to 0. -/
theorem claim_C9_builtins_unused :
    (∀ (ops : MathOps) (tokens : List Token) (f p : Nat) (tok : Token),
        tokens.get? p = some tok → tok.type = .IDENTIFIER →
        tok.value ∈ built_in_functions → tok.value ≠ "sin" → tok.value ≠ "cos" →
        primary ops tokens (f + 1) p = .ok (.int 0, p + 1)) ∧
    (∀ ops : MathOps, calculate ops (tokenizeExpr "tan(1)") = .ok (.int 0)) ∧
    (∀ ops : MathOps, calculate ops (tokenizeExpr "sqrt(1)") = .ok (.int 0)) := by
  refine ⟨?_, fun ops => by with_unfolding_all rfl, fun ops => by with_unfolding_all rfl⟩
  intro ops tokens f p tok heq htype _hmem hsin hcos
  show evalRule ops tokens (f + 1) .primaryR p = _
  simp only [evalRule]
  rw [heq]
  simp [htype, hsin, hcos]

theorem claim_C9_builtins_unused_witness :
    primary mathOpsZero [{ type := .IDENTIFIER, value := "tan", line := 1, column := 1 }] 1 0
      = .ok (.int 0, 1) :=
  claim_C9_builtins_unused.1 mathOpsZero
    [{ type := .IDENTIFIER, value := "tan", line := 1, column := 1 }] 0 0
    { type := .IDENTIFIER, value := "tan", line := 1, column := 1 }
    rfl rfl (by decide) (by decide) (by decide)

/-- Claim C10: the evaluator does not require the whole token sequence
to be consumed: whenever `expression` succeeds at a position strictly
before the end, `calculate` returns that value and the trailing tokens
are ignored; for the tokens of `"2 3"` the parse stops after the first
token (position 1 of 2) and the result is 2, the second token never
being treated as an error. -/
theorem claim_C10_prefix_eval :
    (∀ (ops : MathOps) (tokens : List Token) (v : PyNum) (p : Nat),
        expression ops tokens (evalFuel tokens) 0 = .ok (v, p) → p < tokens.length →
        calculate ops tokens = .ok v) ∧
    (∀ ops : MathOps,
      expression ops (tokenizeExpr "2 3") (evalFuel (tokenizeExpr "2 3")) 0 = .ok (.int 2, 1) ∧
      (tokenizeExpr "2 3").length = 2 ∧
      calculate ops (tokenizeExpr "2 3") = .ok (.int 2)) := by
  constructor
  · intro ops tokens v p h _hlt
    unfold calculate
    rw [h]
    rfl
  · intro ops
    exact ⟨by with_unfolding_all rfl, by with_unfolding_all rfl, by with_unfolding_all rfl⟩

theorem claim_C10_prefix_eval_witness :
    calculate mathOpsZero (tokenizeExpr "2 3") = .ok (.int 2) :=
  claim_C10_prefix_eval.1 mathOpsZero (tokenizeExpr "2 3") (.int 2) 1
    (by with_unfolding_all rfl) (by decide)

end LFA
